import Mathlib

/-!
Verification development for the pubsub-wrapper facade (`src/PubSub.ts`).

The facade wraps a managed pub/sub client: it validates nothing at
construction, keeps a registry from topic names to topic handles, and
exposes `init`, `createTopic`, `deleteTopic`, `subscribe`, `unsubscribe`
and `publish`.  The development below shallowly embeds the facade's
observable behaviour: the JSON wire format used by `publish`
(`JSON.stringify({ content, meta })` to UTF-8 bytes and its inverse),
the registry-manipulating operations as pure state transformers, the
event stream (`log` / `success` / `error`) as an output list, and the
listener bookkeeping of `subscribe` / `unsubscribe` with object identity
made explicit.
-/

namespace PubSubWrapper

/-- JSON values as carried by the publish envelope
`{ "content": <any>, "meta": { ... } }`.  Numbers are modelled as
integers (the repository publishes plain JS objects; float formatting is
out of scope of this embedding). -/
inductive JsonValue where
  | null : JsonValue
  | bool (b : Bool) : JsonValue
  | num (n : Int) : JsonValue
  | str (s : String) : JsonValue
  | arr (elems : List JsonValue) : JsonValue
  | obj (fields : List (String × JsonValue)) : JsonValue
deriving Repr, Inhabited

/-- Left-brace character, kept as a named constant. -/
def lcurly : Char := Char.ofNat 123

/-- Right-brace character, kept as a named constant. -/
def rcurly : Char := Char.ofNat 125

/-- Decimal digit character for a value below ten. -/
def decChar (n : Nat) : Char := Char.ofNat (48 + n)

/-- Lower-case hexadecimal digit character for a value below sixteen. -/
def hexDigitChar (n : Nat) : Char :=
  if n < 10 then Char.ofNat (48 + n) else Char.ofNat (87 + n)

/-- Decimal digits of `n`, most significant first; the fuel argument
only bounds the recursion depth. -/
def natDigitsAux : Nat → Nat → List Char
  | 0, _ => []
  | fuel + 1, n =>
    if n < 10 then [decChar n]
    else natDigitsAux fuel (n / 10) ++ [decChar (n % 10)]

/-- Decimal digits of `n`, most significant first. -/
def natDigits (n : Nat) : List Char := natDigitsAux (n + 1) n

/-- Characters printed for an integer, as `JSON.stringify` prints an
integral JS number: an optional leading minus sign and decimal digits. -/
def intChars (n : Int) : List Char :=
  if n < 0 then '-' :: natDigits (-n).toNat else natDigits n.toNat

/-- String-character escaping of `JSON.stringify`: quote and backslash
get a backslash escape, the named control characters get their two-byte
escapes, the remaining control characters become `\u00xx`, and all other
characters are emitted verbatim. -/
def escapeChar (c : Char) : List Char :=
  if c = '\"' then ['\\', '\"']
  else if c = '\\' then ['\\', '\\']
  else if c.toNat = 8 then ['\\', 'b']
  else if c.toNat = 9 then ['\\', 't']
  else if c.toNat = 10 then ['\\', 'n']
  else if c.toNat = 12 then ['\\', 'f']
  else if c.toNat = 13 then ['\\', 'r']
  else if c.toNat < 32 then
    '\\' :: 'u' :: '0' :: '0'
      :: [hexDigitChar (c.toNat / 16), hexDigitChar (c.toNat % 16)]
  else [c]

/-- Escape every character of a string body. -/
def escapeList : List Char → List Char
  | [] => []
  | c :: cs => escapeChar c ++ escapeList cs

mutual

/-- Characters of the JSON serialization of a value, exactly as
`JSON.stringify` lays them out: no whitespace, object fields in order. -/
def stringifyVal : JsonValue → List Char
  | .num n => intChars n
  | .str s => '\"' :: (escapeList s.data ++ ['\"'])
  | .bool b => if b then 't' :: ['r', 'u', 'e'] else 'f' :: ['a', 'l', 's', 'e']
  | .null => 'n' :: ['u', 'l', 'l']
  | .arr [] => ['[', ']']
  | .arr (x :: xs) => '[' :: (stringifyElems x xs ++ [']'])
  | .obj [] => [lcurly, rcurly]
  | .obj (kv :: kvs) => lcurly :: (stringifyMembers kv kvs ++ [rcurly])
termination_by v => sizeOf v
decreasing_by all_goals (simp_wf; try omega)

/-- Comma-separated serialization of a non-empty list of array elements. -/
def stringifyElems : JsonValue → List JsonValue → List Char
  | v, [] => stringifyVal v
  | v, x :: xs => stringifyVal v ++ (',' :: stringifyElems x xs)
termination_by v l => sizeOf v + sizeOf l
decreasing_by all_goals (simp_wf; try omega)

/-- Comma-separated serialization of a non-empty list of object members,
each as `"key":value`. -/
def stringifyMembers : String × JsonValue → List (String × JsonValue) → List Char
  | (k, v), [] =>
    ('\"' :: (escapeList k.data ++ ['\"', ':'])) ++ stringifyVal v
  | (k, v), kv :: kvs =>
    (('\"' :: (escapeList k.data ++ ['\"', ':'])) ++ stringifyVal v)
      ++ (',' :: stringifyMembers kv kvs)
termination_by kv l => sizeOf kv + sizeOf l
decreasing_by all_goals (simp_wf; try omega)

end

/-- JSON serialization of a value to a string, the bytes handed by
`publish` to `Buffer.from`. -/
def jsonStringify (v : JsonValue) : String := String.mk (stringifyVal v)

/-- JSON whitespace recognizer (space, tab, line feed, carriage return). -/
def isWsChar (c : Char) : Bool :=
  c.toNat = 32 || c.toNat = 9 || c.toNat = 10 || c.toNat = 13

/-- Drop leading JSON whitespace. -/
def skipWs : List Char → List Char
  | [] => []
  | c :: cs => if isWsChar c then skipWs cs else c :: cs

/-- Decimal digit recognizer on code points. -/
def isDigitChar (c : Char) : Bool := 48 ≤ c.toNat && c.toNat ≤ 57

/-- Value of a hexadecimal digit character, if it is one. -/
def hexVal (c : Char) : Option Nat :=
  if 48 ≤ c.toNat && c.toNat ≤ 57 then some (c.toNat - 48)
  else if 97 ≤ c.toNat && c.toNat ≤ 102 then some (c.toNat - 87)
  else if 65 ≤ c.toNat && c.toNat ≤ 70 then some (c.toNat - 55)
  else none

/-- Parse the body of a JSON string after the opening quote, undoing the
escapes; returns the decoded characters and the input after the closing
quote. -/
def parseStringBody : List Char → Option (List Char × List Char)
  | [] => none
  | c :: cs =>
    if c = '\"' then some ([], cs)
    else if c = '\\' then
      match cs with
      | [] => none
      | e :: cs2 =>
        if e = '\"' then (parseStringBody cs2).map (fun p => ('\"' :: p.1, p.2))
        else if e = '\\' then (parseStringBody cs2).map (fun p => ('\\' :: p.1, p.2))
        else if e = '/' then (parseStringBody cs2).map (fun p => ('/' :: p.1, p.2))
        else if e = 'b' then (parseStringBody cs2).map (fun p => (Char.ofNat 8 :: p.1, p.2))
        else if e = 't' then (parseStringBody cs2).map (fun p => (Char.ofNat 9 :: p.1, p.2))
        else if e = 'n' then (parseStringBody cs2).map (fun p => (Char.ofNat 10 :: p.1, p.2))
        else if e = 'f' then (parseStringBody cs2).map (fun p => (Char.ofNat 12 :: p.1, p.2))
        else if e = 'r' then (parseStringBody cs2).map (fun p => (Char.ofNat 13 :: p.1, p.2))
        else if e = 'u' then
          match cs2 with
          | h1 :: h2 :: h3 :: h4 :: cs3 =>
            match hexVal h1, hexVal h2, hexVal h3, hexVal h4 with
            | some a, some b, some c2, some d =>
              (parseStringBody cs3).map
                (fun p => (Char.ofNat (4096 * a + 256 * b + 16 * c2 + d) :: p.1, p.2))
            | _, _, _, _ => none
          | _ => none
        else none
    else (parseStringBody cs).map (fun p => (c :: p.1, p.2))

/-- Split off a maximal run of decimal digits. -/
def takeDigits : List Char → List Char × List Char
  | [] => ([], [])
  | c :: cs =>
    if isDigitChar c then
      let p := takeDigits cs
      (c :: p.1, p.2)
    else ([], c :: cs)

/-- Accumulating decimal value of a digit run. -/
def digitsToNatAux : Nat → List Char → Nat
  | acc, [] => acc
  | acc, c :: cs => digitsToNatAux (10 * acc + (c.toNat - 48)) cs

/-- Decimal value of a digit run. -/
def digitsToNat (l : List Char) : Nat := digitsToNatAux 0 l

/-- Test whether a character list starts with the given character. -/
def headIs (l : List Char) (c : Char) : Bool :=
  match l with
  | [] => false
  | c2 :: _ => c2 = c

/-- Parse an integer JSON number: an optional minus sign followed by at
least one decimal digit. -/
def parseIntChars : List Char → Option (Int × List Char)
  | [] => none
  | c :: cs =>
    if c = '-' then
      match takeDigits cs with
      | ([], _) => none
      | (ds, rest) => some (-(digitsToNat ds : Int), rest)
    else
      match takeDigits (c :: cs) with
      | ([], _) => none
      | (ds, rest) => some ((digitsToNat ds : Int), rest)

mutual

/-- Fueled recursive-descent JSON parser for one value; the fuel bounds
the nesting and element recursion and is decremented at every recursive
call. -/
def parseValue : Nat → List Char → Option (JsonValue × List Char)
  | 0, _ => none
  | fuel + 1, l =>
    match skipWs l with
    | [] => none
    | c :: rest =>
      if c = 'n' then
        match rest with
        | 'u' :: 'l' :: 'l' :: r => some (.null, r)
        | _ => none
      else if c = 't' then
        match rest with
        | 'r' :: 'u' :: 'e' :: r => some (.bool true, r)
        | _ => none
      else if c = 'f' then
        match rest with
        | 'a' :: 'l' :: 's' :: 'e' :: r => some (.bool false, r)
        | _ => none
      else if c = '\"' then
        (parseStringBody rest).map (fun p => (.str (String.mk p.1), p.2))
      else if c = '[' then
        if headIs (skipWs rest) ']' then some (.arr [], List.tail (skipWs rest))
        else (parseElems fuel rest).map (fun p => (.arr p.1, p.2))
      else if c = lcurly then
        if headIs (skipWs rest) rcurly then some (.obj [], List.tail (skipWs rest))
        else (parseMembers fuel rest).map (fun p => (.obj p.1, p.2))
      else
        (parseIntChars (c :: rest)).map (fun p => (.num p.1, p.2))

/-- Parse the comma-separated elements of a non-empty array, up to and
including the closing bracket. -/
def parseElems : Nat → List Char → Option (List JsonValue × List Char)
  | 0, _ => none
  | fuel + 1, l =>
    (parseValue fuel l).bind (fun p =>
      if headIs (skipWs p.2) ',' then
        (parseElems fuel (List.tail (skipWs p.2))).map (fun q => (p.1 :: q.1, q.2))
      else if headIs (skipWs p.2) ']' then some ([p.1], List.tail (skipWs p.2))
      else none)

/-- Parse the comma-separated members of a non-empty object, up to and
including the closing brace. -/
def parseMembers : Nat → List Char → Option (List (String × JsonValue) × List Char)
  | 0, _ => none
  | fuel + 1, l =>
    match skipWs l with
    | [] => none
    | c :: rest =>
      if c = '\"' then
        (parseStringBody rest).bind (fun kp =>
          if headIs (skipWs kp.2) ':' then
            (parseValue fuel (List.tail (skipWs kp.2))).bind (fun vp =>
              if headIs (skipWs vp.2) ',' then
                (parseMembers fuel (List.tail (skipWs vp.2))).map
                  (fun q => ((String.mk kp.1, vp.1) :: q.1, q.2))
              else if headIs (skipWs vp.2) rcurly then
                some ([(String.mk kp.1, vp.1)], List.tail (skipWs vp.2))
              else none)
          else none)
      else none

end

/-- JSON parsing of a whole string: parse one value with fuel bounded by
the input length and require only trailing whitespace. -/
def jsonParse (s : String) : Option JsonValue :=
  match parseValue (s.data.length + 1) s.data with
  | some (v, rest) => if skipWs rest = [] then some v else none
  | none => none

mutual

/-- Fuel sufficient for `parseValue` to parse the serialization of `v`. -/
def fuelFor : JsonValue → Nat
  | .null => 1
  | .bool _ => 1
  | .num _ => 1
  | .str _ => 1
  | .arr [] => 1
  | .arr (x :: xs) => fuelForElems x xs + 1
  | .obj [] => 1
  | .obj (kv :: kvs) => fuelForMembers kv kvs + 1
termination_by v => sizeOf v
decreasing_by all_goals (simp_wf; try omega)

/-- Fuel sufficient for `parseElems` on a non-empty element list. -/
def fuelForElems : JsonValue → List JsonValue → Nat
  | v, [] => fuelFor v + 1
  | v, x :: xs => fuelFor v + fuelForElems x xs + 1
termination_by v l => sizeOf v + sizeOf l
decreasing_by all_goals (simp_wf; try omega)

/-- Fuel sufficient for `parseMembers` on a non-empty member list. -/
def fuelForMembers : String × JsonValue → List (String × JsonValue) → Nat
  | (_, v), [] => fuelFor v + 1
  | (_, v), kv :: kvs => fuelFor v + fuelForMembers kv kvs + 1
termination_by kv l => sizeOf kv + sizeOf l
decreasing_by all_goals (simp_wf; try omega)

end

/-- Boundary condition after a serialized number: the remaining input
must not start with a digit, so the greedy digit scan stops exactly at
the number's end. -/
def boundary : List Char → Bool
  | [] => true
  | c :: _ => !isDigitChar c

/-- Credential record from the configuration interface. -/
structure Credentials where
  client_email : String
  private_key : String
deriving Repr, DecidableEq

/-- Constructor argument: the configuration object as it is passed in,
each field possibly absent (the `PubSubConfig` fields are static types
only, never checked at runtime). -/
structure ConfigInput where
  projectId : Option String := none
  file : Option String := none
  credentials : Option Credentials := none
  ack_deadline_seconds : Option Nat := none
deriving Repr, DecidableEq

/-- Stored configuration after the constructor's spread
`{ ack_deadline_seconds: 300, ...config }`. -/
structure Config where
  projectId : Option String
  file : Option String
  credentials : Option Credentials
  ack_deadline_seconds : Nat
deriving Repr, DecidableEq

/-- Spread merge performed by the constructor: a present
`ack_deadline_seconds` overrides the default 300, all other fields are
copied as given. -/
def mergeConfig (cfg : ConfigInput) : Config :=
  { projectId := cfg.projectId
    file := cfg.file
    credentials := cfg.credentials
    ack_deadline_seconds := cfg.ack_deadline_seconds.getD 300 }

/-- Client handle created by `init` from the configuration. -/
structure Client where
  projectId : Option String
  keyFile : Option String
  credentials : Option Credentials
deriving Repr, DecidableEq

/-- Topic handle as held in the facade's registry. -/
structure TopicHandle where
  name : String
deriving Repr, DecidableEq

/-- Error-event payload shape used by the `error` emitter helper. -/
structure ErrData where
  topicName : Option String := none
  message : Option JsonValue := none
  options : Option (List (String × JsonValue)) := none
  subName : Option String := none

/-- Events emitted to the event sink (`log` / `success` / `error`). -/
inductive Event where
  | log (service message : String) : Event
  | success (service message : String) : Event
  | error (service err : String) (data : ErrData) : Event

/-- Facade state: service name, merged configuration, client handle and
topic registry (the fields of the `PubSub` class). -/
structure FacadeState where
  name : String
  config : Config
  client : Option Client
  topics : String → Option TopicHandle

/-- Shallow embedding of the constructor (`PubSub.ts` lines 30-36): it
assigns the three fields and performs no validation, so it cannot throw;
the `Except` result type records that no failure path exists. -/
def construct (name : String) (cfg : ConfigInput) : Except String FacadeState :=
  .ok { name := name
        config := mergeConfig cfg
        client := none
        topics := fun _ => none }

/-- Client built by `init` from the stored configuration. -/
def clientOf (cfg : Config) : Client :=
  { projectId := cfg.projectId, keyFile := cfg.file, credentials := cfg.credentials }

/-- Text interpolated for the project id in event messages. -/
def projectIdText (cfg : Config) : String := cfg.projectId.getD "undefined"

/-- Observable outcome of one run of `init`. -/
structure InitResult where
  state : FacadeState
  events : List Event
  ret : Except String Unit

/-- Shallow embedding of `init` (lines 67-87): it logs the chosen auth
method, builds a client from the configuration and checks connectivity
by listing topics; `getTopicsOk` is the outcome of that external call.
The client field is assigned only inside the fulfilled continuation. -/
def init (st : FacadeState) (getTopicsOk : Bool) : InitResult :=
  let logEv := Event.log st.name "Using config"
  let cl := clientOf st.config
  if getTopicsOk then
    { state := { st with client := some cl }
      events := [logEv,
        Event.success st.name
          ("Successfully connected on project " ++ projectIdText st.config)]
      ret := .ok () }
  else
    { state := st, events := [logEv], ret := .error "getTopics failed" }

/-- Upstream topic creation (`topic.create()`): fails with an
already-exists error when the topic is present upstream, otherwise adds
it and returns the created handle. -/
def topicCreate (up : List String) (name : String) :
    Option (TopicHandle × List String) :=
  if name ∈ up then none else some ({ name := name }, name :: up)

/-- Shallow embedding of `createTopic` (lines 96-111): requires an
initialized client, logs, checks upstream existence; if the topic
exists it registers the handle and reports success without attempting
creation, otherwise it creates the topic and registers the created
handle.  `up` is the set of topic names existing upstream; `none`
models a raised error. -/
def createTopic (st : FacadeState) (up : List String) (name : String) :
    Option (FacadeState × List String × List Event × Bool) :=
  match st.client with
  | none => none
  | some _ =>
    let logEv := Event.log st.name ("Creating topic " ++ name)
    if name ∈ up then
      some ({ st with topics := fun n => if n = name then some { name := name } else st.topics n },
            up,
            [logEv, Event.success st.name ("Topic \"" ++ name ++ "\" already exists")],
            true)
    else
      (topicCreate up name).map (fun p =>
        ({ st with topics := fun n => if n = name then some p.1 else st.topics n },
         p.2,
         [logEv, Event.success st.name ("Topic \"" ++ name ++ "\" created")],
         true))

/-- Shallow embedding of `deleteTopic` (lines 120-127): looks the handle
up in the registry (`none` models the `TypeError` on an unregistered
name), deletes the topic upstream, logs, and removes the registry
entry.  `deleteOk` is the outcome of the upstream delete call. -/
def deleteTopic (st : FacadeState) (up : List String) (name : String)
    (deleteOk : Bool) :
    Option (FacadeState × List String × List Event × Bool) :=
  match st.topics name with
  | none => none
  | some tp =>
    if deleteOk then
      some ({ st with topics := fun n => if n = name then none else st.topics n },
            up.erase tp.name,
            [Event.log st.name ("Deleted topic " ++ tp.name)],
            true)
    else none

/-- Outcome of the external transport publish call. -/
inductive PublishOutcome where
  | success : PublishOutcome
  | failure (err : String) : PublishOutcome
deriving Repr, DecidableEq

/-- Whether the transport call failed. -/
def PublishOutcome.isFailure : PublishOutcome → Bool
  | .success => false
  | .failure _ => true

/-- Envelope bytes built by `publish` (lines 260-267):
`JSON.stringify` of the two-field object holding `content` and `meta`. -/
def publishEnvelope (content : JsonValue) (meta : List (String × JsonValue)) : String :=
  jsonStringify (.obj [("content", content), ("meta", .obj meta)])

/-- Observable outcome of one `publish` call: the settled value of the
promise the caller receives, the bytes handed to the transport, the
emitted events, and whether a rejected publish promise was left floating
(neither returned, awaited nor caught). -/
structure PublishResult where
  returned : Except String Unit
  envelope : Option String
  events : List Event
  floatingRejection : Bool

/-- Shallow embedding of `publish` (lines 253-280).  The registry is
consulted first (`none` models the `TypeError` rejecting the async
call); the envelope is serialized and handed to the transport; when
`handle` is `false` the function returns `undefined` at once, leaving
the publish promise floating; otherwise the promise is awaited under a
`catch` that emits an error event carrying topic, content and meta. -/
def publish (st : FacadeState) (topicName : String) (content : JsonValue)
    (meta : List (String × JsonValue)) (handle : Bool)
    (transport : PublishOutcome) : PublishResult :=
  match st.topics topicName with
  | none =>
    { returned := .error "TypeError: topic is undefined"
      envelope := none
      events := []
      floatingRejection := false }
  | some _ =>
    let env := publishEnvelope content meta
    if handle = false then
      { returned := .ok ()
        envelope := some env
        events := []
        floatingRejection := transport.isFailure }
    else
      match transport with
      | .success =>
        { returned := .ok (), envelope := some env, events := [], floatingRejection := false }
      | .failure err =>
        { returned := .ok ()
          envelope := some env
          events := [Event.error st.name err
            { topicName := some topicName, message := some content, options := some meta }]
          floatingRejection := false }

/-- A listener object held in a subscription's listener list.  Object
identity of JS function values is made explicit: the anonymous wrapper
closure created by `subscribe` around callback `cbId` is a different
object from the callback `fn cbId` itself. -/
inductive Listener where
  | fn (cbId : Nat) : Listener
  | messageWrapper (cbId : Nat) : Listener
  | errorForwarder (oid : Nat) : Listener
deriving Repr, DecidableEq

/-- One subscription object created by `topic.subscription(...)`; `oid`
is its object identity. -/
structure SubObject where
  oid : Nat
  subName : String
  msgListeners : List Listener
  errListeners : List Listener
deriving Repr, DecidableEq

/-- The world of subscription objects: every object created by
`topic.subscription(...)` (a fresh instance per call), and the set of
subscription names existing upstream. -/
structure SubWorld where
  nextId : Nat
  objects : List SubObject
  upstreamSubs : List String
deriving Repr, DecidableEq

/-- Embedding of `topic.subscription(name)`: constructs a fresh
subscription object carrying no listeners. -/
def topicSubscription (w : SubWorld) (name : String) : SubObject × SubWorld :=
  let obj : SubObject :=
    { oid := w.nextId, subName := name, msgListeners := [], errListeners := [] }
  (obj, { w with nextId := w.nextId + 1, objects := w.objects ++ [obj] })

/-- Apply an update to the subscription object with the given identity. -/
def updateObject (w : SubWorld) (oid : Nat) (f : SubObject → SubObject) : SubWorld :=
  { w with objects := w.objects.map (fun o => if o.oid = oid then f o else o) }

/-- Node's `removeListener`: removes at most one listener, the most
recently added instance equal (by reference) to the argument. -/
def removeListenerList (ls : List Listener) (x : Listener) : List Listener :=
  (ls.reverse.erase x).reverse

/-- Shallow embedding of the listener bookkeeping of `subscribe`
(lines 148-211): requires the topic to be registered, constructs a
fresh subscription object, creates the subscription upstream unless it
already exists, and attaches an anonymous message wrapper around the
callback plus an error forwarder to that object.  Returns `true`. -/
def subscribe (st : FacadeState) (w : SubWorld) (topicName subName : String)
    (cbId : Nat) : Option (SubWorld × List Event × Bool) :=
  match st.topics topicName with
  | none => none
  | some _ =>
    let p := topicSubscription w subName
    let existed := subName ∈ p.2.upstreamSubs
    let w2 := if existed then p.2
              else { p.2 with upstreamSubs := subName :: p.2.upstreamSubs }
    let w3 := updateObject w2 p.1.oid (fun o =>
      { o with msgListeners := o.msgListeners ++ [Listener.messageWrapper cbId],
               errListeners := o.errListeners ++ [Listener.errorForwarder p.1.oid] })
    some (w3,
      [Event.log st.name "Subscribing",
       if existed then Event.success st.name "Subscription already exists"
       else Event.success st.name "Created subscription"],
      true)

/-- Shallow embedding of `unsubscribe` (lines 222-239): requires the
topic to be registered, constructs a fresh subscription object via
`topic.subscription(subName)`, calls `removeListener('message', cb)` on
that fresh object with the caller's callback object, deletes the
subscription upstream, logs, and returns `true`. -/
def unsubscribe (st : FacadeState) (w : SubWorld) (topicName subName : String)
    (cbId : Nat) : Option (SubWorld × List Event × Bool) :=
  match st.topics topicName with
  | none => none
  | some _ =>
    let p := topicSubscription w subName
    let w2 := updateObject p.2 p.1.oid (fun o =>
      { o with msgListeners := removeListenerList o.msgListeners (Listener.fn cbId) })
    let w3 := { w2 with upstreamSubs := w2.upstreamSubs.erase subName }
    some (w3,
      [Event.log st.name ("Removed listener from " ++ topicName ++ ", " ++ subName)],
      true)

/-- Raw message delivered by the transport: identity, capability flags
for `nack`/`skip`, and payload bytes. -/
structure RawMessage where
  mid : Nat
  hasNack : Bool
  hasSkip : Bool
  payload : String
deriving Repr

/-- A function value stored in the wrapped envelope: a method of the
transport bound to a particular message, or a no-op closure. -/
inductive BoundFn where
  | ackOf (mid : Nat) : BoundFn
  | nackOf (mid : Nat) : BoundFn
  | skipOf (mid : Nat) : BoundFn
  | noop : BoundFn
deriving Repr, DecidableEq

/-- Envelope handed to the caller's message callback. -/
structure WrappedMessage where
  nack : BoundFn
  skip : BoundFn
  ack : BoundFn
  data : JsonValue

/-- Modelled from the spec: the external parsing utility
(`safely-parse-json`, a dependency whose source is not part of this
repository) best-effort parses the payload and, per the spec, returns a
safe fallback — the original string — instead of throwing when the
payload is not valid JSON. -/
def safeJSON (s : String) : JsonValue :=
  match jsonParse s with
  | some v => v
  | none => .str s

/-- Shallow embedding of the message-listener closure installed by
`subscribe` (lines 194-202): `ack` is always bound to the message,
`nack` and `skip` are bound when the message supports them and no-ops
otherwise, and `data` is the best-effort parse of the payload bytes. -/
def wrapMessage (msg : RawMessage) : WrappedMessage :=
  { nack := if msg.hasNack then .nackOf msg.mid else .noop
    skip := if msg.hasSkip then .skipOf msg.mid else .noop
    ack := .ackOf msg.mid
    data := safeJSON msg.payload }

/-- Meta object built from the two known optional fields of `publish`'s
`meta` parameter. -/
def metaFields (replyTo correlationId : Option String) : List (String × JsonValue) :=
  (match replyTo with
   | some s => [("replyTo", JsonValue.str s)]
   | none => []) ++
  (match correlationId with
   | some s => [("correlationId", JsonValue.str s)]
   | none => [])

/-- Concrete ready facade state with the topic `"t"` registered, used as
a test fixture. -/
def stReady : FacadeState :=
  { name := "svc"
    config := mergeConfig { projectId := some "p" }
    client := some (clientOf (mergeConfig { projectId := some "p" }))
    topics := fun n => if n = "t" then some { name := "t" } else none }

/-- Concrete empty subscription world, used as a test fixture. -/
def world0 : SubWorld := { nextId := 0, objects := [], upstreamSubs := [] }

/-! ### Character and digit lemmas -/

theorem ne_of_toNat_ne {c d : Char} (h : c.toNat ≠ d.toNat) : c ≠ d :=
  fun he => h (he ▸ rfl)

theorem skipWs_cons {c : Char} (l : List Char) (h : isWsChar c = false) :
    skipWs (c :: l) = c :: l := by
  simp [skipWs, h]

theorem hexVal_hexDigitChar : ∀ m : Nat, m < 16 → hexVal (hexDigitChar m) = some m := by
  decide

theorem decChar_spec : ∀ m : Nat, m < 10 →
    isDigitChar (decChar m) = true ∧ (decChar m).toNat = 48 + m := by
  decide

theorem isDigitChar_toNat {c : Char} (h : isDigitChar c = true) :
    48 ≤ c.toNat ∧ c.toNat ≤ 57 := by
  simpa [isDigitChar] using h

theorem isWsChar_of_digit {c : Char} (h : isDigitChar c = true) :
    isWsChar c = false := by
  obtain ⟨h1, h2⟩ := isDigitChar_toNat h
  simp [isWsChar]
  omega

theorem digitsToNatAux_append (l1 l2 : List Char) : ∀ acc : Nat,
    digitsToNatAux acc (l1 ++ l2) = digitsToNatAux (digitsToNatAux acc l1) l2 := by
  induction l1 with
  | nil => intro acc; rfl
  | cons c cs ih => intro acc; exact ih (10 * acc + (c.toNat - 48))

theorem natDigitsAux_spec : ∀ fuel n, n < fuel →
    natDigitsAux fuel n ≠ []
    ∧ (∀ c ∈ natDigitsAux fuel n, isDigitChar c = true)
    ∧ digitsToNat (natDigitsAux fuel n) = n := by
  intro fuel
  induction fuel with
  | zero => intro n h; omega
  | succ fuel ih =>
    intro n h
    by_cases h10 : n < 10
    · have hd := decChar_spec n h10
      refine ⟨by simp [natDigitsAux, h10], ?_, ?_⟩
      · intro c hc
        simp [natDigitsAux, h10] at hc
        rw [hc]; exact hd.1
      · have h1 : natDigitsAux (fuel + 1) n = [decChar n] := by
          simp [natDigitsAux, h10]
        rw [h1]
        have h2 : digitsToNat [decChar n] = 10 * 0 + ((decChar n).toNat - 48) := rfl
        rw [h2, hd.2]
        omega
    · have hdivlt : n / 10 < fuel := by omega
      obtain ⟨hne, hdig, hval⟩ := ih (n / 10) hdivlt
      have hd := decChar_spec (n % 10) (by omega)
      have hstep : natDigitsAux (fuel + 1) n
          = natDigitsAux fuel (n / 10) ++ [decChar (n % 10)] := by
        simp [natDigitsAux, h10]
      refine ⟨?_, ?_, ?_⟩
      · rw [hstep]; simp
      · intro c hc
        rw [hstep] at hc
        simp at hc
        rcases hc with hc | hc
        · exact hdig c hc
        · rw [hc]; exact hd.1
      · rw [hstep, digitsToNat, digitsToNatAux_append]
        have hval2 : digitsToNatAux 0 (natDigitsAux fuel (n / 10)) = n / 10 := by
          simpa [digitsToNat] using hval
        rw [hval2]
        have h3 : digitsToNatAux (n / 10) [decChar (n % 10)]
            = 10 * (n / 10) + ((decChar (n % 10)).toNat - 48) := rfl
        rw [h3, hd.2]
        omega

theorem natDigits_spec (n : Nat) :
    natDigits n ≠ [] ∧ (∀ c ∈ natDigits n, isDigitChar c = true)
    ∧ digitsToNat (natDigits n) = n :=
  natDigitsAux_spec (n + 1) n (by omega)

theorem takeDigits_append : ∀ ds rest, (∀ c ∈ ds, isDigitChar c = true) →
    boundary rest = true → takeDigits (ds ++ rest) = (ds, rest) := by
  intro ds
  induction ds with
  | nil =>
    intro rest _ hb
    cases rest with
    | nil => rfl
    | cons c cs =>
      have hc : isDigitChar c = false := by simpa [boundary] using hb
      simp [takeDigits, hc]
  | cons d ds ih =>
    intro rest hd hb
    have hdd : isDigitChar d = true := hd d (by simp)
    simp [takeDigits, hdd, ih rest (fun c hc => hd c (by simp [hc])) hb]

theorem parseIntChars_intChars (n : Int) (rest : List Char)
    (hb : boundary rest = true) :
    parseIntChars (intChars n ++ rest) = some (n, rest) := by
  by_cases hn : n < 0
  · obtain ⟨hne, hdig, hval⟩ := natDigits_spec (-n).toNat
    obtain ⟨d, t, hdt⟩ : ∃ d t, natDigits (-n).toNat = d :: t := by
      cases hh : natDigits (-n).toNat with
      | nil => exact absurd hh hne
      | cons d t => exact ⟨d, t, rfl⟩
    have hneg : ((-n).toNat : Int) = -n := by omega
    simp only [intChars, if_pos hn, List.cons_append]
    show (match takeDigits (natDigits (-n).toNat ++ rest) with
      | ([], _) => none
      | (ds, r) => some (-(digitsToNat ds : Int), r)) = some (n, rest)
    rw [takeDigits_append _ _ hdig hb, hdt]
    simp only []
    rw [← hdt, hval, hneg]
    simp
  · obtain ⟨hne, hdig, hval⟩ := natDigits_spec n.toNat
    obtain ⟨d, t, hdt⟩ : ∃ d t, natDigits n.toNat = d :: t := by
      cases hh : natDigits n.toNat with
      | nil => exact absurd hh hne
      | cons d t => exact ⟨d, t, rfl⟩
    have hdd : isDigitChar d = true := hdig d (by rw [hdt]; simp)
    obtain ⟨hd1, hd2⟩ := isDigitChar_toNat hdd
    have hdne : d ≠ '-' := by
      apply ne_of_toNat_ne
      have : ('-' : Char).toNat = 45 := rfl
      omega
    simp only [intChars, if_neg hn, hdt, List.cons_append]
    show parseIntChars (d :: (t ++ rest)) = some (n, rest)
    rw [parseIntChars, if_neg hdne, ← List.cons_append, ← hdt,
      takeDigits_append _ _ hdig hb, hdt]
    simp only []
    have hcast : (n.toNat : Int) = n := by omega
    rw [← hdt, hval, hcast]

/-! ### String-escape round trip -/

theorem parseStringBody_ucase (a b : Char) (va vb : Nat) (X : List Char)
    (ha : hexVal a = some va) (hb2 : hexVal b = some vb) :
    parseStringBody ('\\' :: 'u' :: '0' :: '0' :: a :: b :: X)
      = (parseStringBody X).map
          (fun p => (Char.ofNat (16 * va + vb) :: p.1, p.2)) := by
  have h0 : hexVal '0' = some 0 := rfl
  rw [parseStringBody.eq_def]
  simp [ha, hb2, h0]

theorem parseStringBody_escape : ∀ cs rest : List Char,
    parseStringBody (escapeList cs ++ '\"' :: rest) = some (cs, rest) := by
  intro cs
  induction cs with
  | nil =>
    intro rest
    rw [show escapeList [] ++ '\"' :: rest = '\"' :: rest from rfl, parseStringBody.eq_def]
    simp
  | cons c cs ih =>
    intro rest
    show parseStringBody ((escapeChar c ++ escapeList cs) ++ '\"' :: rest)
      = some (c :: cs, rest)
    rw [List.append_assoc]
    by_cases h1 : c = '\"'
    · subst h1
      rw [show escapeChar '\"' ++ (escapeList cs ++ '\"' :: rest)
          = '\\' :: '\"' :: (escapeList cs ++ '\"' :: rest) from rfl,
        parseStringBody.eq_def]
      simp [ih rest]
    by_cases h2 : c = '\\'
    · subst h2
      rw [show escapeChar '\\' ++ (escapeList cs ++ '\"' :: rest)
          = '\\' :: '\\' :: (escapeList cs ++ '\"' :: rest) from rfl,
        parseStringBody.eq_def]
      simp [ih rest]
    by_cases h3 : c.toNat = 8
    · have he : escapeChar c = ['\\', 'b'] := by simp [escapeChar, h1, h2, h3]
      have hc : Char.ofNat 8 = c := by rw [← h3, Char.ofNat_toNat]
      rw [he, show (['\\', 'b'] : List Char) ++ (escapeList cs ++ '\"' :: rest)
          = '\\' :: 'b' :: (escapeList cs ++ '\"' :: rest) from rfl,
        parseStringBody.eq_def]
      simp [ih rest]
      exact hc
    by_cases h4 : c.toNat = 9
    · have he : escapeChar c = ['\\', 't'] := by simp [escapeChar, h1, h2, h3, h4]
      have hc : Char.ofNat 9 = c := by rw [← h4, Char.ofNat_toNat]
      rw [he, show (['\\', 't'] : List Char) ++ (escapeList cs ++ '\"' :: rest)
          = '\\' :: 't' :: (escapeList cs ++ '\"' :: rest) from rfl,
        parseStringBody.eq_def]
      simp [ih rest]
      exact hc
    by_cases h5 : c.toNat = 10
    · have he : escapeChar c = ['\\', 'n'] := by simp [escapeChar, h1, h2, h3, h4, h5]
      have hc : Char.ofNat 10 = c := by rw [← h5, Char.ofNat_toNat]
      rw [he, show (['\\', 'n'] : List Char) ++ (escapeList cs ++ '\"' :: rest)
          = '\\' :: 'n' :: (escapeList cs ++ '\"' :: rest) from rfl,
        parseStringBody.eq_def]
      simp [ih rest]
      exact hc
    by_cases h6 : c.toNat = 12
    · have he : escapeChar c = ['\\', 'f'] := by
        simp [escapeChar, h1, h2, h3, h4, h5, h6]
      have hc : Char.ofNat 12 = c := by rw [← h6, Char.ofNat_toNat]
      rw [he, show (['\\', 'f'] : List Char) ++ (escapeList cs ++ '\"' :: rest)
          = '\\' :: 'f' :: (escapeList cs ++ '\"' :: rest) from rfl,
        parseStringBody.eq_def]
      simp [ih rest]
      exact hc
    by_cases h7 : c.toNat = 13
    · have he : escapeChar c = ['\\', 'r'] := by
        simp [escapeChar, h1, h2, h3, h4, h5, h6, h7]
      have hc : Char.ofNat 13 = c := by rw [← h7, Char.ofNat_toNat]
      rw [he, show (['\\', 'r'] : List Char) ++ (escapeList cs ++ '\"' :: rest)
          = '\\' :: 'r' :: (escapeList cs ++ '\"' :: rest) from rfl,
        parseStringBody.eq_def]
      simp [ih rest]
      exact hc
    by_cases h8 : c.toNat < 32
    · have he : escapeChar c
          = ['\\', 'u', '0', '0', hexDigitChar (c.toNat / 16), hexDigitChar (c.toNat % 16)] := by
        simp [escapeChar, h1, h2, h3, h4, h5, h6, h7, h8]
      rw [he, show (['\\', 'u', '0', '0', hexDigitChar (c.toNat / 16),
            hexDigitChar (c.toNat % 16)] : List Char) ++ (escapeList cs ++ '\"' :: rest)
          = '\\' :: 'u' :: '0' :: '0' :: hexDigitChar (c.toNat / 16)
            :: hexDigitChar (c.toNat % 16) :: (escapeList cs ++ '\"' :: rest) from rfl]
      rw [parseStringBody_ucase _ _ (c.toNat / 16) (c.toNat % 16) _
        (hexVal_hexDigitChar _ (by omega)) (hexVal_hexDigitChar _ (by omega))]
      rw [ih rest]
      have harith : 16 * (c.toNat / 16) + c.toNat % 16 = c.toNat := by omega
      rw [harith, Char.ofNat_toNat]
      rfl
    · have he : escapeChar c = [c] := by
        simp [escapeChar, h1, h2, h3, h4, h5, h6, h7, h8]
      rw [he, show ([c] : List Char) ++ (escapeList cs ++ '\"' :: rest)
          = c :: (escapeList cs ++ '\"' :: rest) from rfl,
        parseStringBody.eq_def]
      simp only []
      rw [if_neg h1, if_neg h2, ih rest]
      rfl

/-! ### Head shapes of serialized values and the number entry point -/

theorem stringifyVal_head (v : JsonValue) :
    ∃ c t, stringifyVal v = c :: t ∧ isWsChar c = false ∧ c ≠ ']' := by
  cases v with
  | null => exact ⟨'n', ['u', 'l', 'l'], by simp [stringifyVal], by decide, by decide⟩
  | bool b =>
    cases b with
    | true => exact ⟨'t', ['r', 'u', 'e'], by simp [stringifyVal], by decide, by decide⟩
    | false => exact ⟨'f', ['a', 'l', 's', 'e'], by simp [stringifyVal], by decide, by decide⟩
  | num n =>
    by_cases hn : n < 0
    · exact ⟨'-', natDigits (-n).toNat, by simp [stringifyVal, intChars, hn],
        by decide, by decide⟩
    · obtain ⟨hne, hdig, hval⟩ := natDigits_spec n.toNat
      obtain ⟨d, t, hdt⟩ : ∃ d t, natDigits n.toNat = d :: t := by
        cases hh : natDigits n.toNat with
        | nil => exact absurd hh hne
        | cons d t => exact ⟨d, t, rfl⟩
      have hdd : isDigitChar d = true := hdig d (by rw [hdt]; simp)
      obtain ⟨h48, h57⟩ := isDigitChar_toNat hdd
      refine ⟨d, t, by simp [stringifyVal, intChars, hn, hdt],
        isWsChar_of_digit hdd, ne_of_toNat_ne ?_⟩
      have e1 : (']' : Char).toNat = 93 := rfl
      omega
  | str s =>
    exact ⟨'\"', escapeList s.data ++ ['\"'], by simp [stringifyVal], by decide, by decide⟩
  | arr l =>
    cases l with
    | nil => exact ⟨'[', [']'], by simp [stringifyVal], by decide, by decide⟩
    | cons x xs =>
      exact ⟨'[', stringifyElems x xs ++ [']'], by simp [stringifyVal], by decide, by decide⟩
  | obj l =>
    cases l with
    | nil => exact ⟨lcurly, [rcurly], by simp [stringifyVal], by decide, by decide⟩
    | cons kv kvs =>
      exact ⟨lcurly, stringifyMembers kv kvs ++ [rcurly], by simp [stringifyVal],
        by decide, by decide⟩

theorem stringifyElems_head (x : JsonValue) (xs : List JsonValue) :
    ∃ c t, stringifyElems x xs = c :: t ∧ isWsChar c = false ∧ c ≠ ']' := by
  obtain ⟨c, t, he, hws, hne⟩ := stringifyVal_head x
  cases xs with
  | nil => exact ⟨c, t, by simp [stringifyElems, he], hws, hne⟩
  | cons y ys =>
    exact ⟨c, t ++ (',' :: stringifyElems y ys), by simp [stringifyElems, he], hws, hne⟩

theorem parseValue_num (fuel : Nat) (n : Int) (rest : List Char)
    (hb : boundary rest = true) :
    parseValue (fuel + 1) (intChars n ++ rest) = some (.num n, rest) := by
  by_cases hn : n < 0
  · rw [show intChars n ++ rest = '-' :: (natDigits (-n).toNat ++ rest) from by
      simp [intChars, hn]]
    rw [show parseValue (fuel + 1) ('-' :: (natDigits (-n).toNat ++ rest))
        = (parseIntChars ('-' :: (natDigits (-n).toNat ++ rest))).map
            (fun p => (JsonValue.num p.1, p.2)) from rfl]
    rw [show ('-' :: (natDigits (-n).toNat ++ rest)) = intChars n ++ rest from by
      simp [intChars, hn]]
    rw [parseIntChars_intChars n rest hb]
    rfl
  · obtain ⟨hne, hdig, hval⟩ := natDigits_spec n.toNat
    obtain ⟨d, t, hdt⟩ : ∃ d t, natDigits n.toNat = d :: t := by
      cases hh : natDigits n.toNat with
      | nil => exact absurd hh hne
      | cons d t => exact ⟨d, t, rfl⟩
    have hdd : isDigitChar d = true := hdig d (by rw [hdt]; simp)
    obtain ⟨h48, h57⟩ := isDigitChar_toNat hdd
    have hws : isWsChar d = false := isWsChar_of_digit hdd
    have hn1 : ¬ d = 'n' := ne_of_toNat_ne (by
      have e : ('n' : Char).toNat = 110 := rfl
      omega)
    have hn2 : ¬ d = 't' := ne_of_toNat_ne (by
      have e : ('t' : Char).toNat = 116 := rfl
      omega)
    have hn3 : ¬ d = 'f' := ne_of_toNat_ne (by
      have e : ('f' : Char).toNat = 102 := rfl
      omega)
    have hn4 : ¬ d = '\"' := ne_of_toNat_ne (by
      have e : ('\"' : Char).toNat = 34 := rfl
      omega)
    have hn5 : ¬ d = '[' := ne_of_toNat_ne (by
      have e : ('[' : Char).toNat = 91 := rfl
      omega)
    have hn6 : ¬ d = lcurly := ne_of_toNat_ne (by
      have e : lcurly.toNat = 123 := rfl
      omega)
    have hin : intChars n ++ rest = d :: (t ++ rest) := by
      simp [intChars, hn, hdt]
    rw [hin, parseValue.eq_def]
    simp only []
    rw [skipWs_cons _ hws]
    simp only [hn1, hn2, hn3, hn4, hn5, hn6, if_false, ite_false]
    rw [← List.cons_append, ← hdt, show natDigits n.toNat = intChars n from by
      simp [intChars, hn]]
    rw [parseIntChars_intChars n rest hb]
    rfl

/-! ### The parse-of-stringify round trip -/

theorem fuelFor_pos (v : JsonValue) : 1 ≤ fuelFor v := by
  cases v with
  | null => simp [fuelFor]
  | bool b => simp [fuelFor]
  | num n => simp [fuelFor]
  | str s => simp [fuelFor]
  | arr l => cases l <;> simp [fuelFor]
  | obj l => cases l <;> simp [fuelFor]

theorem fuelForElems_pos (x : JsonValue) (xs : List JsonValue) :
    1 ≤ fuelForElems x xs := by
  cases xs <;> simp [fuelForElems]

theorem fuelForMembers_pos (kv : String × JsonValue) (kvs : List (String × JsonValue)) :
    1 ≤ fuelForMembers kv kvs := by
  obtain ⟨k, v⟩ := kv
  cases kvs <;> simp [fuelForMembers]

theorem stringifyMembers_head (k : String) (v : JsonValue)
    (kvs : List (String × JsonValue)) :
    ∃ t, stringifyMembers (k, v) kvs = '\"' :: t := by
  cases kvs with
  | nil =>
    exact ⟨(escapeList k.data ++ ['\"', ':']) ++ stringifyVal v, by simp [stringifyMembers]⟩
  | cons kv2 kvs2 =>
    exact ⟨((escapeList k.data ++ ['\"', ':']) ++ stringifyVal v)
      ++ (',' :: stringifyMembers kv2 kvs2), by simp [stringifyMembers]⟩

theorem stringifyMembers_shape_nil (k : String) (v : JsonValue) (tail : List Char) :
    stringifyMembers (k, v) [] ++ tail
      = '\"' :: (escapeList k.data ++ '\"' :: ':' :: (stringifyVal v ++ tail)) := by
  simp [stringifyMembers]

theorem stringifyMembers_shape_cons (k : String) (v : JsonValue)
    (kv2 : String × JsonValue) (kvs2 : List (String × JsonValue)) (tail : List Char) :
    stringifyMembers (k, v) (kv2 :: kvs2) ++ tail
      = '\"' :: (escapeList k.data ++ '\"' :: ':' :: (stringifyVal v
          ++ ',' :: (stringifyMembers kv2 kvs2 ++ tail))) := by
  simp [stringifyMembers]

theorem parse_stringify : ∀ fuel : Nat,
    (∀ v rest, fuelFor v ≤ fuel → boundary rest = true →
        parseValue fuel (stringifyVal v ++ rest) = some (v, rest))
    ∧ (∀ x xs rest, fuelForElems x xs ≤ fuel →
        parseElems fuel (stringifyElems x xs ++ ']' :: rest) = some (x :: xs, rest))
    ∧ (∀ kv kvs rest, fuelForMembers kv kvs ≤ fuel →
        parseMembers fuel (stringifyMembers kv kvs ++ rcurly :: rest)
          = some (kv :: kvs, rest)) := by
  intro fuel
  induction fuel with
  | zero =>
    refine ⟨?_, ?_, ?_⟩
    · intro v rest hf _
      have := fuelFor_pos v
      omega
    · intro x xs rest hf
      have := fuelForElems_pos x xs
      omega
    · intro kv kvs rest hf
      have := fuelForMembers_pos kv kvs
      omega
  | succ fuel ih =>
    obtain ⟨ihV, ihE, ihM⟩ := ih
    refine ⟨?_, ?_, ?_⟩
    · intro v rest hf hb
      cases v with
      | null =>
        rw [show stringifyVal .null ++ rest = 'n' :: 'u' :: 'l' :: 'l' :: rest from by
          simp [stringifyVal]]
        rfl
      | bool b =>
        cases b with
        | true =>
          rw [show stringifyVal (.bool true) ++ rest = 't' :: 'r' :: 'u' :: 'e' :: rest from by
            simp [stringifyVal]]
          rfl
        | false =>
          rw [show stringifyVal (.bool false) ++ rest
              = 'f' :: 'a' :: 'l' :: 's' :: 'e' :: rest from by simp [stringifyVal]]
          rfl
      | num n =>
        rw [show stringifyVal (.num n) = intChars n from by simp [stringifyVal]]
        exact parseValue_num fuel n rest hb
      | str s =>
        rw [show stringifyVal (.str s) ++ rest
            = '\"' :: (escapeList s.data ++ '\"' :: rest) from by simp [stringifyVal]]
        rw [show parseValue (fuel + 1) ('\"' :: (escapeList s.data ++ '\"' :: rest))
            = (parseStringBody (escapeList s.data ++ '\"' :: rest)).map
                (fun p => (JsonValue.str (String.mk p.1), p.2)) from rfl]
        rw [parseStringBody_escape s.data rest]
        rfl
      | arr l =>
        cases l with
        | nil =>
          rw [show stringifyVal (.arr []) ++ rest = '[' :: ']' :: rest from by
            simp [stringifyVal]]
          rfl
        | cons x xs =>
          obtain ⟨c0, t0, he, hws0, hne0⟩ := stringifyElems_head x xs
          have hfe : fuelForElems x xs ≤ fuel := by
            have hexp : fuelFor (.arr (x :: xs)) = fuelForElems x xs + 1 := by
              simp [fuelFor]
            omega
          have hE := ihE x xs rest hfe
          rw [show stringifyVal (.arr (x :: xs)) ++ rest
              = '[' :: (stringifyElems x xs ++ ']' :: rest) from by
            simp [stringifyVal]]
          rw [parseValue.eq_def]
          simp only []
          rw [show skipWs ('[' :: (stringifyElems x xs ++ ']' :: rest))
              = '[' :: (stringifyElems x xs ++ ']' :: rest) from
            skipWs_cons _ (by decide)]
          simp only []
          rw [if_neg (by decide : ¬ ('[' : Char) = 'n'),
            if_neg (by decide : ¬ ('[' : Char) = 't'),
            if_neg (by decide : ¬ ('[' : Char) = 'f'),
            if_neg (by decide : ¬ ('[' : Char) = '\"'),
            if_pos (show True from trivial)]
          rw [he, List.cons_append]
          rw [show skipWs (c0 :: (t0 ++ ']' :: rest)) = c0 :: (t0 ++ ']' :: rest) from
            skipWs_cons _ hws0]
          rw [show headIs (c0 :: (t0 ++ ']' :: rest)) ']' = false from by
            simp [headIs, hne0]]
          rw [if_neg (by simp : ¬ (false : Bool) = true)]
          rw [← List.cons_append, ← he, hE]
          rfl
      | obj l =>
        cases l with
        | nil =>
          rw [show stringifyVal (.obj []) ++ rest = lcurly :: rcurly :: rest from by
            simp [stringifyVal]]
          rfl
        | cons kv kvs =>
          obtain ⟨k, v0⟩ := kv
          have hfm : fuelForMembers (k, v0) kvs ≤ fuel := by
            have hexp : fuelFor (.obj ((k, v0) :: kvs)) = fuelForMembers (k, v0) kvs + 1 := by
              simp [fuelFor]
            omega
          have hM := ihM (k, v0) kvs rest hfm
          obtain ⟨T0, hT0⟩ := stringifyMembers_head k v0 kvs
          rw [show stringifyVal (.obj ((k, v0) :: kvs)) ++ rest
              = lcurly :: (stringifyMembers (k, v0) kvs ++ rcurly :: rest) from by
            simp [stringifyVal]]
          rw [parseValue.eq_def]
          simp only []
          rw [show skipWs (lcurly :: (stringifyMembers (k, v0) kvs ++ rcurly :: rest))
              = lcurly :: (stringifyMembers (k, v0) kvs ++ rcurly :: rest) from
            skipWs_cons _ (by decide)]
          simp only []
          rw [if_neg (by decide : ¬ lcurly = 'n'),
            if_neg (by decide : ¬ lcurly = 't'),
            if_neg (by decide : ¬ lcurly = 'f'),
            if_neg (by decide : ¬ lcurly = '\"'),
            if_neg (by decide : ¬ lcurly = '['),
            if_pos (show True from trivial)]
          rw [hT0, List.cons_append]
          rw [show skipWs ('\"' :: (T0 ++ rcurly :: rest)) = '\"' :: (T0 ++ rcurly :: rest) from
            skipWs_cons _ (by decide)]
          rw [show headIs ('\"' :: (T0 ++ rcurly :: rest)) rcurly = false from rfl]
          rw [if_neg (by simp : ¬ (false : Bool) = true)]
          rw [← List.cons_append, ← hT0, hM]
          rfl
    · intro x xs rest hfe
      cases xs with
      | nil =>
        have hfx : fuelFor x ≤ fuel := by
          have hexp : fuelForElems x [] = fuelFor x + 1 := by simp [fuelForElems]
          omega
        rw [show stringifyElems x [] ++ ']' :: rest = stringifyVal x ++ ']' :: rest from by
          simp [stringifyElems]]
        rw [parseElems.eq_def]
        simp only []
        rw [ihV x (']' :: rest) hfx rfl]
        rfl
      | cons y ys =>
        have hexp : fuelForElems x (y :: ys) = fuelFor x + fuelForElems y ys + 1 := by
          simp [fuelForElems]
        have hfx : fuelFor x ≤ fuel := by omega
        have hfy : fuelForElems y ys ≤ fuel := by omega
        rw [show stringifyElems x (y :: ys) ++ ']' :: rest
            = stringifyVal x ++ (',' :: (stringifyElems y ys ++ ']' :: rest)) from by
          simp [stringifyElems]]
        rw [parseElems.eq_def]
        simp only []
        rw [ihV x (',' :: (stringifyElems y ys ++ ']' :: rest)) hfx rfl]
        rw [show Option.bind (some (x, ',' :: (stringifyElems y ys ++ ']' :: rest)))
            = fun f => f (x, ',' :: (stringifyElems y ys ++ ']' :: rest)) from rfl]
        simp only []
        rw [show skipWs (',' :: (stringifyElems y ys ++ ']' :: rest))
            = ',' :: (stringifyElems y ys ++ ']' :: rest) from skipWs_cons _ (by decide)]
        rw [show headIs (',' :: (stringifyElems y ys ++ ']' :: rest)) ',' = true from rfl]
        rw [if_pos (rfl : (true : Bool) = true)]
        rw [show List.tail (',' :: (stringifyElems y ys ++ ']' :: rest))
            = stringifyElems y ys ++ ']' :: rest from rfl]
        rw [ihE y ys rest hfy]
        rfl
    · intro kv kvs rest hfm
      obtain ⟨k, v0⟩ := kv
      cases kvs with
      | nil =>
        have hfv : fuelFor v0 ≤ fuel := by
          have hexp1 : fuelForMembers (k, v0) [] = fuelFor v0 + 1 := by
            simp [fuelForMembers]
          omega
        rw [stringifyMembers_shape_nil]
        rw [parseMembers.eq_def]
        simp only []
        rw [show skipWs ('\"' :: (escapeList k.data
            ++ '\"' :: ':' :: (stringifyVal v0 ++ rcurly :: rest)))
            = '\"' :: (escapeList k.data
            ++ '\"' :: ':' :: (stringifyVal v0 ++ rcurly :: rest)) from
          skipWs_cons _ (by decide)]
        simp only []
        rw [if_pos (show True from trivial)]
        rw [parseStringBody_escape k.data (':' :: (stringifyVal v0 ++ rcurly :: rest))]
        rw [show Option.bind (some (k.data, ':' :: (stringifyVal v0 ++ rcurly :: rest)))
            = fun f => f (k.data, ':' :: (stringifyVal v0 ++ rcurly :: rest)) from rfl]
        simp only []
        rw [show skipWs (':' :: (stringifyVal v0 ++ rcurly :: rest))
            = ':' :: (stringifyVal v0 ++ rcurly :: rest) from skipWs_cons _ (by decide)]
        rw [show headIs (':' :: (stringifyVal v0 ++ rcurly :: rest)) ':' = true from rfl]
        rw [if_pos (show (true : Bool) = true from rfl)]
        rw [show List.tail (':' :: (stringifyVal v0 ++ rcurly :: rest))
            = stringifyVal v0 ++ rcurly :: rest from rfl]
        rw [ihV v0 (rcurly :: rest) hfv rfl]
        rfl
      | cons kv2 kvs2 =>
        have hexp2 : fuelForMembers (k, v0) (kv2 :: kvs2)
            = fuelFor v0 + fuelForMembers kv2 kvs2 + 1 := by simp [fuelForMembers]
        have hfv : fuelFor v0 ≤ fuel := by omega
        have hfm2 : fuelForMembers kv2 kvs2 ≤ fuel := by omega
        rw [stringifyMembers_shape_cons]
        rw [parseMembers.eq_def]
        simp only []
        rw [show skipWs ('\"' :: (escapeList k.data ++ '\"' :: ':' :: (stringifyVal v0
            ++ ',' :: (stringifyMembers kv2 kvs2 ++ rcurly :: rest))))
            = '\"' :: (escapeList k.data ++ '\"' :: ':' :: (stringifyVal v0
            ++ ',' :: (stringifyMembers kv2 kvs2 ++ rcurly :: rest))) from
          skipWs_cons _ (by decide)]
        simp only []
        rw [if_pos (show True from trivial)]
        rw [parseStringBody_escape k.data (':' :: (stringifyVal v0
          ++ ',' :: (stringifyMembers kv2 kvs2 ++ rcurly :: rest)))]
        rw [show Option.bind (some (k.data, ':' :: (stringifyVal v0
            ++ ',' :: (stringifyMembers kv2 kvs2 ++ rcurly :: rest))))
            = fun f => f (k.data, ':' :: (stringifyVal v0
            ++ ',' :: (stringifyMembers kv2 kvs2 ++ rcurly :: rest))) from rfl]
        simp only []
        rw [show skipWs (':' :: (stringifyVal v0
            ++ ',' :: (stringifyMembers kv2 kvs2 ++ rcurly :: rest)))
            = ':' :: (stringifyVal v0
            ++ ',' :: (stringifyMembers kv2 kvs2 ++ rcurly :: rest)) from
          skipWs_cons _ (by decide)]
        rw [show headIs (':' :: (stringifyVal v0
            ++ ',' :: (stringifyMembers kv2 kvs2 ++ rcurly :: rest))) ':' = true from rfl]
        rw [if_pos (show (true : Bool) = true from rfl)]
        rw [show List.tail (':' :: (stringifyVal v0
            ++ ',' :: (stringifyMembers kv2 kvs2 ++ rcurly :: rest)))
            = stringifyVal v0 ++ ',' :: (stringifyMembers kv2 kvs2 ++ rcurly :: rest) from
          rfl]
        rw [ihV v0 (',' :: (stringifyMembers kv2 kvs2 ++ rcurly :: rest)) hfv rfl]
        rw [show Option.bind (some (v0, ',' :: (stringifyMembers kv2 kvs2 ++ rcurly :: rest)))
            = fun f => f (v0, ',' :: (stringifyMembers kv2 kvs2 ++ rcurly :: rest)) from rfl]
        simp only []
        rw [show skipWs (',' :: (stringifyMembers kv2 kvs2 ++ rcurly :: rest))
            = ',' :: (stringifyMembers kv2 kvs2 ++ rcurly :: rest) from
          skipWs_cons _ (by decide)]
        rw [show headIs (',' :: (stringifyMembers kv2 kvs2 ++ rcurly :: rest)) ',' = true from
          rfl]
        rw [if_pos (show (true : Bool) = true from rfl)]
        rw [show List.tail (',' :: (stringifyMembers kv2 kvs2 ++ rcurly :: rest))
            = stringifyMembers kv2 kvs2 ++ rcurly :: rest from rfl]
        rw [ihM kv2 kvs2 rest hfm2]
        rfl

theorem intChars_ne_nil (n : Int) : intChars n ≠ [] := by
  by_cases hn : n < 0
  · simp [intChars, hn]
  · obtain ⟨hne, _, _⟩ := natDigits_spec n.toNat
    simp [intChars, hn, hne]

theorem stringifyVal_ne_nil (v : JsonValue) : stringifyVal v ≠ [] := by
  obtain ⟨c, t, he, -, -⟩ := stringifyVal_head v
  simp [he]

theorem fuelFor_le_length :
    (∀ v, fuelFor v ≤ (stringifyVal v).length)
    ∧ (∀ (kv : String × JsonValue) (kvs : List (String × JsonValue)),
        fuelForMembers kv kvs ≤ (stringifyMembers kv kvs).length + 1)
    ∧ (∀ (x : JsonValue) (xs : List JsonValue),
        fuelForElems x xs ≤ (stringifyElems x xs).length + 1) := by
  apply fuelFor.mutual_induct <;> intros <;>
    simp_all [fuelFor, fuelForElems, fuelForMembers, stringifyVal, stringifyElems,
      stringifyMembers] <;>
    first
      | omega
      | exact List.length_pos.mpr (stringifyVal_ne_nil _)
      | exact List.length_pos.mpr (intChars_ne_nil _)
      | (split <;> simp)

theorem jsonParse_jsonStringify (v : JsonValue) : jsonParse (jsonStringify v) = some v := by
  have hmain := (parse_stringify ((stringifyVal v).length + 1)).1 v []
    (by have := fuelFor_le_length.1 v; omega) rfl
  rw [List.append_nil] at hmain
  simp only [jsonParse]
  rw [show (jsonStringify v).data = stringifyVal v from rfl]
  rw [hmain]
  rfl

/-! ### Claim theorems -/

/-- C1: the spec claims `publish(topic, content, meta, false)` returns the
raw uncaught publish promise so the caller observes a transport failure
directly.  The code instead returns `undefined` at once: evaluated at the
failing input below, the promise the caller receives resolves with `ok`,
no event is emitted, and the rejected publish promise is left floating,
neither returned nor caught. -/
theorem publish_no_handle_resolves_void :
    (publish stReady "t" (JsonValue.obj [("x", JsonValue.num 1)]) [] false
        (PublishOutcome.failure "boom")).returned = Except.ok ()
    ∧ (publish stReady "t" (JsonValue.obj [("x", JsonValue.num 1)]) [] false
        (PublishOutcome.failure "boom")).events = []
    ∧ (publish stReady "t" (JsonValue.obj [("x", JsonValue.num 1)]) [] false
        (PublishOutcome.failure "boom")).floatingRejection = true :=
  ⟨rfl, rfl, rfl⟩

/-- C2 counterexample: the claim says every configuration missing
`projectId` makes construction fail; constructing with a configuration
that has no `projectId` at all succeeds. -/
theorem construct_missing_projectId_succeeds :
    ∃ st, construct "pubsub"
      { projectId := none, file := none, credentials := none,
        ack_deadline_seconds := none } = Except.ok st :=
  ⟨_, rfl⟩

/-- C2 amended: the constructor performs no validation at all: for every
configuration, including those missing `projectId`, construction succeeds
before any network call, storing the configuration with the ack deadline
defaulted to 300, a null client and an empty registry. -/
theorem construct_never_validates (name : String) (cfg : ConfigInput) :
    ∃ st, construct name cfg = Except.ok st
      ∧ st.client = none
      ∧ st.config.projectId = cfg.projectId
      ∧ st.config.file = cfg.file
      ∧ st.config.credentials = cfg.credentials
      ∧ st.config.ack_deadline_seconds = cfg.ack_deadline_seconds.getD 300
      ∧ ∀ t, st.topics t = none :=
  ⟨_, rfl, rfl, rfl, rfl, rfl, rfl, fun _ => rfl⟩

/-- C3: with `handle = true` (the default) a transport failure is caught:
the caller's promise resolves, a single error event carrying the topic
name, the content and the meta is emitted, and the failure is not
re-raised. -/
theorem publish_handled_failure_swallowed (st : FacadeState) (tn : String)
    (content : JsonValue) (meta : List (String × JsonValue)) (err : String)
    (tp : TopicHandle) (h : st.topics tn = some tp) :
    (publish st tn content meta true (PublishOutcome.failure err)).returned = Except.ok ()
    ∧ (publish st tn content meta true (PublishOutcome.failure err)).events
        = [Event.error st.name err
            { topicName := some tn, message := some content, options := some meta }]
    ∧ (publish st tn content meta true (PublishOutcome.failure err)).floatingRejection
        = false := by
  simp [publish, h]

theorem publish_handled_failure_swallowed_witness :
    (publish stReady "t" (JsonValue.obj [("x", JsonValue.num 1)]) [] true
        (PublishOutcome.failure "boom")).returned = Except.ok ()
    ∧ (publish stReady "t" (JsonValue.obj [("x", JsonValue.num 1)]) [] true
        (PublishOutcome.failure "boom")).events
        = [Event.error stReady.name "boom"
            { topicName := some "t", message := some (JsonValue.obj [("x", JsonValue.num 1)]),
              options := some [] }]
    ∧ (publish stReady "t" (JsonValue.obj [("x", JsonValue.num 1)]) [] true
        (PublishOutcome.failure "boom")).floatingRejection = false :=
  publish_handled_failure_swallowed stReady "t" (JsonValue.obj [("x", JsonValue.num 1)])
    [] "boom" { name := "t" } rfl

/-- C4: `createTopic` called twice in sequence is idempotent: the first
call registers the handle (creating the topic upstream only when it does
not yet exist), the second call finds the topic upstream, registers the
existing handle without attempting creation, reports "already exists",
and both calls return `true` without raising an error. -/
theorem createTopic_idempotent (st : FacadeState) (up : List String) (name : String)
    (cl : Client) (h : st.client = some cl) :
    ∃ st1 up1 ev1 st2 up2 ev2,
      createTopic st up name = some (st1, up1, ev1, true)
      ∧ createTopic st1 up1 name = some (st2, up2, ev2, true)
      ∧ st1.topics name = some { name := name }
      ∧ st2.topics name = some { name := name }
      ∧ (name ∈ up → up1 = up)
      ∧ (name ∉ up → up1 = name :: up)
      ∧ up2 = up1
      ∧ Event.success st.name ("Topic \"" ++ name ++ "\" already exists") ∈ ev2 := by
  by_cases hm : name ∈ up
  · have e1 : createTopic st up name
        = some ({ st with topics := (fun n => if n = name then
                      some ({ name := name } : TopicHandle) else st.topics n) },
            up,
            [Event.log st.name ("Creating topic " ++ name),
             Event.success st.name ("Topic \"" ++ name ++ "\" already exists")],
            true) := by
      simp [createTopic, h, hm]
    have e2 : createTopic ({ st with topics := (fun n => if n = name then
          some ({ name := name } : TopicHandle) else st.topics n) } : FacadeState) up name
        = some ({ st with topics := (fun n => if n = name then
                      some ({ name := name } : TopicHandle) else st.topics n) },
            up,
            [Event.log st.name ("Creating topic " ++ name),
             Event.success st.name ("Topic \"" ++ name ++ "\" already exists")],
            true) := by
      simp [createTopic, h, hm]
      funext n
      by_cases hn : n = name <;> simp [hn]
    refine ⟨_, up, _, _, up, _, e1, e2, by simp, by simp, fun _ => rfl,
      fun hn => absurd hm hn, rfl, by simp⟩
  · have e1 : createTopic st up name
        = some ({ st with topics := (fun n => if n = name then
                      some ({ name := name } : TopicHandle) else st.topics n) },
            name :: up,
            [Event.log st.name ("Creating topic " ++ name),
             Event.success st.name ("Topic \"" ++ name ++ "\" created")],
            true) := by
      simp [createTopic, h, hm, topicCreate]
    have hm2 : name ∈ name :: up := by simp
    have e2 : createTopic ({ st with topics := (fun n => if n = name then
          some ({ name := name } : TopicHandle) else st.topics n) } : FacadeState) (name :: up) name
        = some ({ st with topics := (fun n => if n = name then
                      some ({ name := name } : TopicHandle) else st.topics n) },
            name :: up,
            [Event.log st.name ("Creating topic " ++ name),
             Event.success st.name ("Topic \"" ++ name ++ "\" already exists")],
            true) := by
      simp [createTopic, h, hm2]
      funext n
      by_cases hn : n = name <;> simp [hn]
    refine ⟨_, name :: up, _, _, name :: up, _, e1, e2, by simp, by simp,
      fun hc => absurd hc hm, fun _ => rfl, rfl, by simp⟩

theorem createTopic_idempotent_witness :
    ∃ st1 up1 ev1 st2 up2 ev2,
      createTopic stReady [] "t2" = some (st1, up1, ev1, true)
      ∧ createTopic st1 up1 "t2" = some (st2, up2, ev2, true)
      ∧ st1.topics "t2" = some { name := "t2" }
      ∧ st2.topics "t2" = some { name := "t2" }
      ∧ ("t2" ∈ ([] : List String) → up1 = [])
      ∧ ("t2" ∉ ([] : List String) → up1 = ["t2"])
      ∧ up2 = up1
      ∧ Event.success stReady.name ("Topic \"" ++ "t2" ++ "\" already exists") ∈ ev2 :=
  createTopic_idempotent stReady [] "t2"
    (clientOf (mergeConfig { projectId := some "p" })) rfl

/-- C5 counterexample: the claim says validation rejects any meta object
with a field other than `replyTo` and `correlationId`; publishing with a
meta containing the unknown field `bogus` succeeds, and decoding the
serialized envelope bytes shows the unknown field passed through into
the wire format. -/
theorem publish_unknown_meta_accepted :
    (publish stReady "t" (JsonValue.obj [("x", JsonValue.num 1)])
        [("bogus", JsonValue.str "y")] true PublishOutcome.success).returned = Except.ok ()
    ∧ ((publish stReady "t" (JsonValue.obj [("x", JsonValue.num 1)])
        [("bogus", JsonValue.str "y")] true PublishOutcome.success).envelope).map jsonParse
      = some (some (JsonValue.obj
          [("content", JsonValue.obj [("x", JsonValue.num 1)]),
           ("meta", JsonValue.obj [("bogus", JsonValue.str "y")])])) := by
  constructor
  · rfl
  · exact congrArg some (jsonParse_jsonStringify
      (JsonValue.obj [("content", JsonValue.obj [("x", JsonValue.num 1)]),
        ("meta", JsonValue.obj [("bogus", JsonValue.str "y")])]))

/-- C5 amended: `publish` performs no runtime validation of `meta` (the
known-fields restriction is a compile-time type only): for every meta
object, known or unknown fields alike, the call succeeds and the fields
pass through unchanged into the serialized envelope. -/
theorem publish_meta_passthrough (st : FacadeState) (tn : String) (content : JsonValue)
    (meta : List (String × JsonValue)) (handle : Bool) (transport : PublishOutcome)
    (tp : TopicHandle) (h : st.topics tn = some tp) :
    (publish st tn content meta handle transport).envelope
      = some (publishEnvelope content meta)
    ∧ (publish st tn content meta handle transport).returned = Except.ok () := by
  cases handle <;> cases transport <;> simp [publish, h]

theorem publish_meta_passthrough_witness :
    (publish stReady "t" JsonValue.null [("bogus", JsonValue.str "y")] true
        PublishOutcome.success).envelope
      = some (publishEnvelope JsonValue.null [("bogus", JsonValue.str "y")])
    ∧ (publish stReady "t" JsonValue.null [("bogus", JsonValue.str "y")] true
        PublishOutcome.success).returned = Except.ok () :=
  publish_meta_passthrough stReady "t" JsonValue.null [("bogus", JsonValue.str "y")]
    true PublishOutcome.success { name := "t" } rfl

/-- C6: encoding `\x7bcontent: C, meta: M\x7d` through `publish`'s envelope wire
format (UTF-8 JSON bytes of the two-field object) and decoding those same
bytes yields back exactly the same content and meta, for every JSON value
`C` and every meta `M` built from the optional `replyTo` and
`correlationId` fields. -/
theorem publish_envelope_round_trip (C : JsonValue) (replyTo correlationId : Option String) :
    jsonParse (publishEnvelope C (metaFields replyTo correlationId))
      = some (JsonValue.obj [("content", C),
          ("meta", JsonValue.obj (metaFields replyTo correlationId))]) :=
  jsonParse_jsonStringify _

/-- C7: the spec claims `unsubscribe` removes exactly the listener that
`subscribe` registered for the same callback reference.  The code cannot:
`subscribe` registers an anonymous wrapper closure (not the callback
itself) on a subscription object, and `unsubscribe` calls
`removeListener('message', cb)` with the raw callback on a freshly
constructed subscription object.  Evaluated at the failing input below,
after subscribe-then-unsubscribe with the same callback 7 the wrapper
listener is still attached, the callback was never in any listener list,
and the call still reports `true`. -/
theorem unsubscribe_removes_nothing :
    ∃ w1 ev1 w2 ev2,
      subscribe stReady world0 "t" "s" 7 = some (w1, ev1, true)
      ∧ unsubscribe stReady w1 "t" "s" 7 = some (w2, ev2, true)
      ∧ w2.objects.map SubObject.msgListeners = [[Listener.messageWrapper 7], []]
      ∧ (∀ o ∈ w2.objects, Listener.fn 7 ∉ o.msgListeners)
      ∧ w2.upstreamSubs = [] := by
  refine ⟨_, _, _, _, rfl, rfl, ?_, ?_, ?_⟩
  · decide
  · decide
  · decide

/-- C8: the envelope handed to a subscriber's callback always carries an
`ack` bound to the underlying message; `nack` and `skip` are bound to the
message exactly when it supports them and are no-ops otherwise; and
`data` is the best-effort JSON parse of the payload bytes, a total
function that on the concrete payloads below yields the parsed object for
well-formed JSON and the raw-string fallback, never an exception, for
malformed JSON. -/
theorem subscribe_envelope_spec :
    (∀ msg : RawMessage,
        (wrapMessage msg).ack = BoundFn.ackOf msg.mid
        ∧ (wrapMessage msg).nack
            = (if msg.hasNack then BoundFn.nackOf msg.mid else BoundFn.noop)
        ∧ (wrapMessage msg).skip
            = (if msg.hasSkip then BoundFn.skipOf msg.mid else BoundFn.noop)
        ∧ (wrapMessage msg).data = safeJSON msg.payload)
    ∧ (wrapMessage ⟨0, false, false, "\x7b\"a\":1\x7d"⟩).data
        = JsonValue.obj [("a", JsonValue.num 1)]
    ∧ (wrapMessage ⟨1, false, false, "\x7bbad json"⟩).data = JsonValue.str "\x7bbad json"
    ∧ (wrapMessage ⟨2, false, true, "\x7b\"a\":1\x7d"⟩).nack = BoundFn.noop
    ∧ (wrapMessage ⟨3, true, true, "\x7b\"a\":1\x7d"⟩).nack = BoundFn.nackOf 3 :=
  ⟨fun _ => ⟨rfl, rfl, rfl, rfl⟩, rfl, rfl, rfl, rfl⟩

/-- C9: a successful `deleteTopic(name)` on a registered name deletes the
topic upstream, emits an informational log event, removes exactly the
entry for `name` from the registry while leaving every other entry
unchanged, and returns `true`. -/
theorem deleteTopic_frame (st : FacadeState) (up : List String) (name : String)
    (tp : TopicHandle) (h : st.topics name = some tp) :
    ∃ st2 up2 ev,
      deleteTopic st up name true = some (st2, up2, ev, true)
      ∧ st2.topics name = none
      ∧ (∀ m, m ≠ name → st2.topics m = st.topics m)
      ∧ up2 = up.erase tp.name
      ∧ Event.log st.name ("Deleted topic " ++ tp.name) ∈ ev := by
  refine ⟨{ st with topics := fun n => if n = name then none else st.topics n },
    up.erase tp.name, [Event.log st.name ("Deleted topic " ++ tp.name)],
    ?_, ?_, ?_, rfl, ?_⟩
  · simp [deleteTopic, h]
  · simp
  · intro m hm
    simp [hm]
  · simp

theorem deleteTopic_frame_witness :
    ∃ st2 up2 ev,
      deleteTopic stReady ["t"] "t" true = some (st2, up2, ev, true)
      ∧ st2.topics "t" = none
      ∧ (∀ m, m ≠ "t" → st2.topics m = stReady.topics m)
      ∧ up2 = ["t"].erase (({ name := "t" } : TopicHandle).name)
      ∧ Event.log stReady.name ("Deleted topic " ++ ({ name := "t" } : TopicHandle).name) ∈ ev :=
  deleteTopic_frame stReady ["t"] "t" { name := "t" } rfl

/-- C10: `init` assigns the client handle only after the connectivity
check succeeds: on a failed check the whole facade state, and in
particular its client field, is left unchanged and the returned promise
rejects; on a successful check the client field is assigned the client
built from the configuration. -/
theorem init_client_assignment (st : FacadeState) :
    (init st false).state = st
    ∧ (init st false).state.client = st.client
    ∧ (init st false).ret = Except.error "getTopics failed"
    ∧ (init st true).state.client = some (clientOf st.config)
    ∧ (init st true).ret = Except.ok () :=
  ⟨rfl, rfl, rfl, rfl, rfl⟩

end PubSubWrapper

